import Mathlib

/-!
Verification of a repeated second-price ad-auction simulation.

The development shallowly embeds the two Python classes of the repository:

* `Bidder` (src/bidder.py): a Thompson-sampling bandit bidder with per-user
  click statistics.
* `Auction` (src/test_auction.py): the auction engine whose `execute_round`
  selects a user, collects bids, ranks them, settles the winner's balance at
  the second price, notifies every bidder, disqualifies insolvent bidders and
  logs a round record.

Modelling conventions:

* Python floats are modelled as exact rationals (`ℚ`); `round(x, 3)` is
  modelled as exact round-half-to-even on `x * 1000`.
* Random draws (the Beta sample, the uniform bid noise, the user choice and
  the click outcome) are explicit inputs, collected in a `RoundOracle`.
* Python dictionaries are insertion-ordered association lists; Python object
  identity of bidders is modelled by a natural-number id.
* A raised Python exception is an `Except.error` carrying a `PyErr` naming
  the exception class.
* The transcendental UCB bookkeeping value
  `sampled_ctr + 1/log1p(round_counter) * sqrt(2*log(round_counter)/views)`
  (src/bidder.py lines 57, 68-69) is stored symbolically as its three inputs
  (`UcbValue.score`), since no verified property consumes its numeric value
  and floating-point transcendentals have no exact rational embedding.
-/

set_option allowUnsafeReducibility true
set_option linter.unusedVariables false

attribute [semireducible] Rat.add Rat.mul Rat.inv Rat.sub Rat.div Rat.ofScientific

/-- Python exception classes that the embedded code can raise. -/
inductive PyErr where
  | indexError
  | keyError
  | valueError
deriving DecidableEq

deriving instance DecidableEq for Except

/-- Value of the `ucb_value` field of a user's statistics: `float('inf')` when
the user has no views, otherwise the UCB score recorded symbolically by its
inputs (the Beta sample, the incremented round counter and the view count). -/
inductive UcbValue where
  | inf
  | score (sampled_ctr : ℚ) (round_counter : Nat) (views : Nat)
deriving DecidableEq

/-- Entry of `Bidder.user_stats`: the per-user dictionary
`{"clicks": _, "views": _, "ctr": _, "ucb_value": _}` of src/bidder.py. -/
structure UserStat where
  clicks : Nat
  views : Nat
  ctr : ℚ
  ucb_value : UcbValue
deriving DecidableEq

/-- State of a `Bidder` object (src/bidder.py `__init__`). -/
structure Bidder where
  num_users : Nat
  num_rounds : Nat
  round_counter : Nat
  user_stats : List (Nat × UserStat)
deriving DecidableEq

/-- Dictionary lookup `d[k]` on an insertion-ordered association list,
returning `none` where Python would raise `KeyError`. -/
def dlookup {α : Type} (k : Nat) : List (Nat × α) → Option α
  | [] => none
  | (j, v) :: t => if k = j then some v else dlookup k t

/-- Dictionary assignment `d[k] = v`: replaces the value in place when the key
is present, appends the binding at the end otherwise (Python dict order). -/
def dset {α : Type} (k : Nat) (v : α) : List (Nat × α) → List (Nat × α)
  | [] => [(k, v)]
  | (j, w) :: t => if k = j then (k, v) :: t else (j, w) :: dset k v t

/-- Augmented dictionary assignment `d[k] += δ`: a read followed by a write,
raising `KeyError` when the key is absent. -/
def dincr (k : Nat) (δ : ℚ) (d : List (Nat × ℚ)) : Except PyErr (List (Nat × ℚ)) :=
  match dlookup k d with
  | none => .error .keyError
  | some v => .ok (dset k (v + δ) d)

/-- Exact round-half-to-even of a rational to an integer, the idealisation of
Python's banker's rounding. -/
def roundHalfEven (q : ℚ) : ℤ :=
  let f := ⌊q⌋
  if q - f < 1/2 then f
  else if 1/2 < q - f then f + 1
  else if f % 2 = 0 then f else f + 1

/-- Python `round(q, 3)`: round to three decimal places, ties to even. -/
def pyRound3 (q : ℚ) : ℚ := (roundHalfEven (q * 1000) : ℚ) / 1000

/-- First Beta parameter computed in `Bidder.bid` (src/bidder.py line 60):
`clicks + 1`, with a prior of one click. -/
def alphaOf (st : UserStat) : ℤ := (st.clicks : ℤ) + 1

/-- Second Beta parameter computed in `Bidder.bid` (src/bidder.py line 61):
`views - clicks + 1`, with a prior of one non-click. -/
def betaOf (st : UserStat) : ℤ := (st.views : ℤ) - (st.clicks : ℤ) + 1

/-- Constructor `Bidder(num_users, num_rounds)` of src/bidder.py: zero round
counter and one fresh statistics entry per user id in `range(num_users)`. -/
def Bidder.init (num_users num_rounds : Nat) : Bidder :=
  { num_users := num_users
    num_rounds := num_rounds
    round_counter := 0
    user_stats := (List.range num_users).map
      (fun u => (u, { clicks := 0, views := 0, ctr := 0.5, ucb_value := .inf })) }

/-- Method `Bidder.bid(user_id)` of src/bidder.py (lines 44-74).  The Beta
sample `sampled_ctr` and the uniform noise `u` are the call's two random
draws, passed as inputs.  The returned pair is the bidder state after the
call (mutations up to any raised exception are applied, exactly as in
Python) together with the returned bid or the raised exception.
The unused `exploration_bonus` of line 57 is transcendental and is absorbed
into the symbolic `UcbValue.score`; `np.random.beta` raises `ValueError` on
non-positive parameters, which the `alphaOf`/`betaOf` guard mirrors. -/
def Bidder.bid (b : Bidder) (user_id : Nat) (sampled_ctr u : ℚ) :
    Bidder × Except PyErr ℚ :=
  let b1 : Bidder := { b with round_counter := b.round_counter + 1 }
  match dlookup user_id b1.user_stats with
  | none => (b1, .error .keyError)
  | some st =>
      if alphaOf st ≤ 0 ∨ betaOf st ≤ 0 then (b1, .error .valueError)
      else
        let ucb : UcbValue :=
          if st.views = 0 then .inf
          else .score sampled_ctr b1.round_counter st.views
        let b2 : Bidder :=
          { b1 with user_stats := dset user_id { st with ucb_value := ucb } b1.user_stats }
        let bid_amount := pyRound3 (sampled_ctr * 0.25 + u)
        (b2, .ok (max 0 bid_amount))

/-- Method `Bidder.notify(auction_winner, price, clicked, user_id)` of
src/bidder.py (lines 76-96).  `clicked` is `Option Bool` because the auction
passes `None` to losing bidders; Python truthiness makes only `some true`
count as a click.  When `auction_winner` is false the body is skipped
entirely, so the call is a no-op even for unknown user ids; when it is true,
an unknown user id raises `KeyError` at line 91 before any mutation. -/
def Bidder.notify (b : Bidder) (auction_winner : Bool) (price : ℚ)
    (clicked : Option Bool) (user_id : Nat) : Bidder × Except PyErr Unit :=
  if auction_winner then
    match dlookup user_id b.user_stats with
    | none => (b, .error .keyError)
    | some st =>
        let views := st.views + 1
        let clicks := if clicked = some true then st.clicks + 1 else st.clicks
        let ctr : ℚ := (clicks : ℚ) / (views : ℚ)
        let stats := dset user_id { st with clicks := clicks, views := views, ctr := ctr } b.user_stats
        ({ b with user_stats := stats }, .ok ())
  else (b, .ok ())

example : (Bidder.init 2 5).user_stats =
    [(0, ⟨0, 0, 1/2, .inf⟩), (1, ⟨0, 0, 1/2, .inf⟩)] := by decide

example : ((Bidder.init 1 5).bid 0 (1/2) 0).2 = .ok (1/8) := by decide

example : ((Bidder.init 1 5).notify true 0 (some true) 0).1.user_stats =
    [(0, ⟨1, 1, 1, .inf⟩)] := by decide

/-- Round record appended to `Auction.history` (src/test_auction.py lines
93-101).  Bidder objects are identified by their id; `bids` keeps the
insertion order of the bid dictionary, which is the order of the active
bidder list; `balances` is the snapshot `self.balances.copy()`. -/
structure RoundRecord where
  user_id : Nat
  bids : List (Nat × ℚ)
  winner : Nat
  winning_bid : ℚ
  second_price : ℚ
  clicked : Bool
  balances : List (Nat × ℚ)
deriving DecidableEq

/-- State of the `Auction` object (src/test_auction.py `__init__`).  The user
list is retained only through its length: each `User` carries a hidden click
probability that is consumed solely through the oracle's click outcome.
`bidders` is the ordered active-bidder list, each id paired with the current
state of that bidder object. -/
structure Auction where
  num_users : Nat
  bidders : List (Nat × Bidder)
  balances : List (Nat × ℚ)
  history : List RoundRecord
deriving DecidableEq

/-- Constructor `Auction(users, bidders)`: every bidder starts with balance 0
and the history is empty. -/
def Auction.init (num_users : Nat) (bs : List (Nat × Bidder)) : Auction :=
  { num_users := num_users
    bidders := bs
    balances := bs.map (fun p => (p.1, 0))
    history := [] }

/-- Random draws consumed by one `execute_round` call: the index of the user
picked by `random.choice`, per-bidder-id Beta sample and uniform noise for
the `bid` calls, and the Bernoulli click outcome of `user.show_ad()`. -/
structure RoundOracle where
  userChoice : Nat
  draws : Nat → ℚ × ℚ
  clicked : Bool

/-- Stable insertion of a bid into a descending-sorted list of later bids:
the new element jumps over the strictly greater amounts and lands before any
equal amount (all sorted elements come later in the original order, so ties
keep insertion order, as Python's stable sort does). -/
def insertDesc (x : Nat × ℚ) : List (Nat × ℚ) → List (Nat × ℚ)
  | [] => [x]
  | y :: t => if y.2 ≤ x.2 then x :: y :: t else y :: insertDesc x t

/-- Python `sorted(bids.items(), key=lambda x: x[1], reverse=True)`
(src/test_auction.py line 68): a stable sort, descending by bid amount. -/
def sortDesc : List (Nat × ℚ) → List (Nat × ℚ)
  | [] => []
  | x :: t => insertDesc x (sortDesc t)

/-- Second price selected at src/test_auction.py line 70 from the tail of the
sorted bid list: `sorted_bids[1][1] if len(sorted_bids) > 1 else 0`. -/
def spOf : List (Nat × ℚ) → ℚ
  | [] => 0
  | q :: _ => q.2

/-- Bid collection `{bidder: bidder.bid(user_id) for bidder in self.bidders}`
(src/test_auction.py line 65): calls `bid` on every active bidder in order,
returning the updated bidder states and the bid dictionary, or the first
raised exception (which aborts the round, as an uncaught exception does). -/
def collectBids (user_id : Nat) (draws : Nat → ℚ × ℚ) :
    List (Nat × Bidder) → Except PyErr (List (Nat × Bidder) × List (Nat × ℚ))
  | [] => .ok ([], [])
  | (i, b) :: rest =>
      let r := b.bid user_id (draws i).1 (draws i).2
      match r.2 with
      | .error e => .error e
      | .ok amt =>
          match collectBids user_id draws rest with
          | .error e => .error e
          | .ok (rest2, bids) => .ok ((i, r.1) :: rest2, (i, amt) :: bids)

/-- Notification loop of src/test_auction.py lines 81-85: the winner gets
`notify(True, second_price, clicked, user_id)`, every other bidder gets
`notify(False, second_price, None, user_id)`.  The loop runs over the bid
dictionary, whose id sequence equals the active-bidder list's, so it is
modelled directly over the bidder-state list. -/
def notifyAll (winner : Nat) (second_price : ℚ) (clicked : Bool) (user_id : Nat) :
    List (Nat × Bidder) → Except PyErr (List (Nat × Bidder))
  | [] => .ok []
  | (i, b) :: rest =>
      let r := if i = winner then b.notify true second_price (some clicked) user_id
               else b.notify false second_price none user_id
      match r.2 with
      | .error e => .error e
      | .ok _ =>
          match notifyAll winner second_price clicked user_id rest with
          | .error e => .error e
          | .ok rest2 => .ok ((i, r.1) :: rest2)

/-- Python `self.bidders.remove(winner)` (src/test_auction.py line 89):
removes the first occurrence of the winner id.  `list.remove` would raise
`ValueError` on a missing element, but the winner is always an element of
the active list, so the empty case is unreachable. -/
def removeFirst (k : Nat) : List (Nat × Bidder) → List (Nat × Bidder)
  | [] => []
  | (j, b) :: t => if j = k then t else (j, b) :: removeFirst k t

/-- Method `Auction.execute_round` of src/test_auction.py (lines 48-101),
with the round's random draws supplied by the oracle.  `random.choice` on an
empty user list and `sorted_bids[0]` on an empty bid list raise `IndexError`;
the two in-place updates `self.balances[winner] -= second_price` and
`self.balances[winner] += 1` are each a read-then-write (`dincr`); the
solvency check at line 88 re-reads `self.balances[winner]` after settlement.
The round record stores the updated balances dictionary, which still holds
an entry for every bidder ever registered (removal only touches the
active-bidder list). -/
def Auction.execute_round (a : Auction) (o : RoundOracle) : Except PyErr Auction :=
  if a.num_users = 0 then .error .indexError
  else
    let user_id := o.userChoice
    match collectBids user_id o.draws a.bidders with
    | .error e => .error e
    | .ok (bidders1, bids) =>
      match sortDesc bids with
      | [] => .error .indexError
      | (winner, winning_bid) :: rest =>
        let second_price := spOf rest
        let clicked := o.clicked
        match dincr winner (-second_price) a.balances with
        | .error e => .error e
        | .ok balances_p =>
          match (if clicked then dincr winner 1 balances_p else .ok balances_p) with
          | .error e => .error e
          | .ok balances1 =>
            match notifyAll winner second_price clicked user_id bidders1 with
            | .error e => .error e
            | .ok bidders2 =>
              match dlookup winner balances1 with
              | none => .error .keyError
              | some wbal =>
                let bidders3 := if wbal < -1000 then removeFirst winner bidders2 else bidders2
                .ok { num_users := a.num_users
                      bidders := bidders3
                      balances := balances1
                      history := a.history ++
                        [{ user_id := user_id, bids := bids, winner := winner,
                           winning_bid := winning_bid, second_price := second_price,
                           clicked := clicked, balances := balances1 }] }

/-- Repeated rounds: one `execute_round` per oracle, stopping at the first
raised exception (an unhandled failure aborts the simulation). -/
def runAuction (a : Auction) : List RoundOracle → Except PyErr Auction
  | [] => .ok a
  | o :: os =>
      match a.execute_round o with
      | .error e => .error e
      | .ok a1 => runAuction a1 os

/-- Ids of the currently active bidders, in list order. -/
def activeIds (a : Auction) : List Nat := a.bidders.map Prod.fst

/-- Key set (in insertion order) of the auction's balances dictionary. -/
def balKeys (a : Auction) : List Nat := a.balances.map Prod.fst

/-- The second-largest value of a list of rationals counted with
multiplicity: the maximum after removing one occurrence of the maximum, or 0
when fewer than two values exist.  This is the specification-side definition
that the recorded `second_price` is compared against. -/
def maxVal : List ℚ → Option ℚ
  | [] => none
  | v :: t =>
      match maxVal t with
      | none => some v
      | some m => some (max v m)

/-- Second-largest value (with multiplicity) of a list of rationals, 0 when
fewer than two elements are present. -/
def secondLargestVals (l : List ℚ) : ℚ :=
  match maxVal l with
  | none => 0
  | some m =>
      match maxVal (l.erase m) with
      | none => 0
      | some m2 => m2

example :
    Auction.execute_round (Auction.init 1 [(0, Bidder.init 1 5), (1, Bidder.init 1 5)])
      { userChoice := 0, draws := fun i => if i = 0 then (1/2, 0) else (1/4, 0),
        clicked := true } =
    .ok { num_users := 1
          bidders := [(0, ⟨1, 5, 1, [(0, ⟨1, 1, 1, .inf⟩)]⟩),
                      (1, ⟨1, 5, 1, [(0, ⟨0, 0, 1/2, .inf⟩)]⟩)]
          balances := [(0, 469/500), (1, 0)]
          history := [{ user_id := 0, bids := [(0, 1/8), (1, 31/500)], winner := 0,
                        winning_bid := 1/8, second_price := 31/500, clicked := true,
                        balances := [(0, 469/500), (1, 0)] }] } := by decide

theorem dlookup_dset_self {α : Type} (k : Nat) (v : α) (l : List (Nat × α)) :
    dlookup k (dset k v l) = some v := by
  induction l with
  | nil => simp [dset, dlookup]
  | cons p t ih =>
      obtain ⟨j, w⟩ := p
      by_cases h : k = j
      · simp [dset, dlookup, h]
      · simp [dset, dlookup, h, ih]

theorem dlookup_dset_ne {α : Type} {j k : Nat} (h : j ≠ k) (v : α) (l : List (Nat × α)) :
    dlookup j (dset k v l) = dlookup j l := by
  induction l with
  | nil => simp [dset, dlookup, h]
  | cons p t ih =>
      obtain ⟨i, w⟩ := p
      by_cases hk : k = i
      · subst hk
        simp [dset, dlookup, h, ih]
      · by_cases hj : j = i <;> simp [dset, dlookup, hk, hj, ih]

theorem keys_dset_of_lookup {α : Type} {k : Nat} {l : List (Nat × α)} {w : α}
    (h : dlookup k l = some w) (v : α) :
    (dset k v l).map Prod.fst = l.map Prod.fst := by
  induction l with
  | nil => simp [dlookup] at h
  | cons p t ih =>
      obtain ⟨i, x⟩ := p
      by_cases hk : k = i
      · simp [dset, hk]
      · simp [dlookup, hk] at h
        simp [dset, hk, ih h]

theorem dlookup_mem_keys {α : Type} {k : Nat} {l : List (Nat × α)} {v : α}
    (h : dlookup k l = some v) : k ∈ l.map Prod.fst := by
  induction l with
  | nil => simp [dlookup] at h
  | cons p t ih =>
      obtain ⟨i, x⟩ := p
      by_cases hk : k = i
      · simp [hk]
      · simp [dlookup, hk] at h
        simp [ih h]

theorem dincr_ok_inv {k : Nat} {δ : ℚ} {d d' : List (Nat × ℚ)}
    (h : dincr k δ d = .ok d') :
    ∃ v, dlookup k d = some v ∧ d' = dset k (v + δ) d := by
  unfold dincr at h
  match hv : dlookup k d with
  | none => rw [hv] at h; exact absurd h (by simp)
  | some v =>
      rw [hv] at h
      simp only [Except.ok.injEq] at h
      exact ⟨v, rfl, h.symm⟩

theorem removeFirst_ids_subset {k : Nat} {l : List (Nat × Bidder)} :
    ∀ j, j ∈ (removeFirst k l).map Prod.fst → j ∈ l.map Prod.fst := by
  induction l with
  | nil => simp [removeFirst]
  | cons p t ih =>
      obtain ⟨i, b⟩ := p
      intro j hj
      by_cases hk : i = k
      · simp [removeFirst, hk] at hj
        simp [hj]
      · simp [removeFirst, hk] at hj
        rcases hj with hj | hj
        · simp [hj]
        · simpa using Or.inr (by simpa using ih j (by simpa using hj))

theorem insertDesc_perm (x : Nat × ℚ) (l : List (Nat × ℚ)) :
    List.Perm (insertDesc x l) (x :: l) := by
  induction l with
  | nil => simp [insertDesc]
  | cons y t ih =>
      by_cases h : y.2 ≤ x.2
      · simp [insertDesc, h]
      · simp only [insertDesc, if_neg h]
        exact (List.Perm.cons y ih).trans (List.Perm.swap x y t)

theorem sortDesc_perm (l : List (Nat × ℚ)) : List.Perm (sortDesc l) l := by
  induction l with
  | nil => simp [sortDesc]
  | cons x t ih => exact (insertDesc_perm x (sortDesc t)).trans (List.Perm.cons x ih)

theorem insertDesc_sorted {x : Nat × ℚ} {l : List (Nat × ℚ)}
    (h : l.Pairwise (fun p q => q.2 ≤ p.2)) :
    (insertDesc x l).Pairwise (fun p q => q.2 ≤ p.2) := by
  induction l with
  | nil => simp [insertDesc]
  | cons y t ih =>
      rcases List.pairwise_cons.mp h with ⟨hy, ht⟩
      by_cases hle : y.2 ≤ x.2
      · simp only [insertDesc, if_pos hle]
        refine List.pairwise_cons.mpr ⟨?_, h⟩
        intro q hq
        rcases List.mem_cons.mp hq with hq | hq
        · subst hq; exact hle
        · exact le_trans (hy q hq) hle
      · simp only [insertDesc, if_neg hle]
        refine List.pairwise_cons.mpr ⟨?_, ih ht⟩
        intro q hq
        rcases List.mem_cons.mp ((insertDesc_perm x t).mem_iff.mp hq) with hq2 | hq2
        · subst hq2; exact le_of_not_le hle
        · exact hy q hq2

theorem sortDesc_sorted (l : List (Nat × ℚ)) :
    (sortDesc l).Pairwise (fun p q => q.2 ≤ p.2) := by
  induction l with
  | nil => simp [sortDesc]
  | cons x t ih => exact insertDesc_sorted ih

theorem maxVal_perm {l l' : List ℚ} (h : List.Perm l l') : maxVal l = maxVal l' := by
  induction h with
  | nil => rfl
  | cons x _ ih => simp [maxVal, ih]
  | swap x y t =>
      simp only [maxVal]
      cases hm : maxVal t with
      | none => simp [max_comm]
      | some m => simp [max_left_comm]
  | trans _ _ ih1 ih2 => exact ih1.trans ih2

theorem maxVal_mem {l : List ℚ} {m : ℚ} (h : maxVal l = some m) : m ∈ l := by
  induction l with
  | nil => simp [maxVal] at h
  | cons v t ih =>
      simp only [maxVal] at h
      match hm : maxVal t with
      | none => rw [hm] at h; simp at h; simp [h]
      | some m2 =>
          rw [hm] at h
          simp only [Option.some.injEq] at h
          rcases max_choice v m2 with hc | hc
          · rw [hc] at h; simp [h]
          · rw [hc] at h; subst h; simp [ih hm]

theorem maxVal_of_upper {v : ℚ} {t : List ℚ} (h : ∀ y ∈ t, y ≤ v) :
    maxVal (v :: t) = some v := by
  induction t with
  | nil => rfl
  | cons w s ih =>
      simp only [maxVal] at ih ⊢
      match hm : maxVal s with
      | none =>
          simp [max_eq_left (h w (by simp))]
      | some m =>
          have hms : m ∈ s := maxVal_mem hm
          have hle : max w m ≤ v := max_le (h w (by simp)) (h m (by simp [hms]))
          simp [max_eq_left hle]

theorem secondLargestVals_perm {l l' : List ℚ} (h : List.Perm l l') :
    secondLargestVals l = secondLargestVals l' := by
  unfold secondLargestVals
  rw [maxVal_perm h]
  match hm : maxVal l' with
  | none => rfl
  | some m =>
      show (match maxVal (l.erase m) with | none => 0 | some m2 => m2) =
        (match maxVal (l'.erase m) with | none => 0 | some m2 => m2)
      rw [maxVal_perm (h.erase m)]

theorem secondLargestVals_sorted {v : ℚ} {vs : List ℚ}
    (h : (v :: vs).Pairwise (fun x y => y ≤ x)) :
    secondLargestVals (v :: vs) = vs.headD 0 := by
  rcases List.pairwise_cons.mp h with ⟨hv, hvs⟩
  have hmax : maxVal (v :: vs) = some v := maxVal_of_upper hv
  unfold secondLargestVals
  rw [hmax]
  show (match maxVal ((v :: vs).erase v) with | none => 0 | some m2 => m2) = vs.headD 0
  rw [List.erase_cons_head]
  match vs, hvs with
  | [], _ => rfl
  | w :: s, hvs =>
      rcases List.pairwise_cons.mp hvs with ⟨hw, _⟩
      rw [maxVal_of_upper hw]
      rfl

theorem bid_snd_ok_inv {b : Bidder} {uid : Nat} {c u : ℚ} {amt : ℚ}
    (h : (Bidder.bid b uid c u).2 = .ok amt) :
    amt = max 0 (pyRound3 (c * 0.25 + u)) := by
  unfold Bidder.bid at h
  match hl : dlookup uid b.user_stats with
  | none => simp only [hl] at h; exact absurd h (by simp)
  | some st =>
      simp only [hl] at h
      by_cases hg : alphaOf st ≤ 0 ∨ betaOf st ≤ 0
      · rw [if_pos hg] at h; exact absurd h (by simp)
      · rw [if_neg hg] at h
        simp only [Except.ok.injEq] at h
        exact h.symm

theorem bid_ok_nonneg {b : Bidder} {uid : Nat} {c u : ℚ} {amt : ℚ}
    (h : (Bidder.bid b uid c u).2 = .ok amt) : 0 ≤ amt := by
  rw [bid_snd_ok_inv h]
  exact le_max_left 0 _

theorem collectBids_ok_inv {user_id : Nat} {draws : Nat → ℚ × ℚ} :
    ∀ {bs bs2 : List (Nat × Bidder)} {bids : List (Nat × ℚ)},
    collectBids user_id draws bs = .ok (bs2, bids) →
    bids.map Prod.fst = bs.map Prod.fst ∧
    bs2.map Prod.fst = bs.map Prod.fst ∧
    ∀ p ∈ bids, 0 ≤ p.2 := by
  intro bs
  induction bs with
  | nil =>
      intro bs2 bids h
      simp only [collectBids, Except.ok.injEq, Prod.mk.injEq] at h
      simp [← h.1, ← h.2]
  | cons p t ih =>
      intro bs2 bids h
      obtain ⟨i, b⟩ := p
      simp only [collectBids] at h
      match hb : (Bidder.bid b user_id (draws i).1 (draws i).2).2 with
      | .error e => rw [hb] at h; exact absurd h (by simp)
      | .ok amt =>
          rw [hb] at h
          match hc : collectBids user_id draws t with
          | .error e => rw [hc] at h; exact absurd h (by simp)
          | .ok (rest2, bids2) =>
              rw [hc] at h
              simp only [Except.ok.injEq, Prod.mk.injEq] at h
              obtain ⟨h1, h2⟩ := h
              obtain ⟨hids, hids2, hnn⟩ := ih hc
              subst h1
              subst h2
              refine ⟨by simp [hids], by simp [hids2], ?_⟩
              intro q hq
              rcases List.mem_cons.mp hq with hq | hq
              · subst hq; exact bid_ok_nonneg hb
              · exact hnn q hq

theorem notifyAll_ok_ids {winner : Nat} {sp : ℚ} {clicked : Bool} {uid : Nat} :
    ∀ {bs bs2 : List (Nat × Bidder)},
    notifyAll winner sp clicked uid bs = .ok bs2 →
    bs2.map Prod.fst = bs.map Prod.fst := by
  intro bs
  induction bs with
  | nil =>
      intro bs2 h
      simp only [notifyAll, Except.ok.injEq] at h
      simp [← h]
  | cons p t ih =>
      intro bs2 h
      obtain ⟨i, b⟩ := p
      simp only [notifyAll] at h
      match hn : (if i = winner then b.notify true sp (some clicked) uid
                  else b.notify false sp none uid).2 with
      | .error e => rw [hn] at h; exact absurd h (by simp)
      | .ok _ =>
          rw [hn] at h
          match hr : notifyAll winner sp clicked uid t with
          | .error e => rw [hr] at h; exact absurd h (by simp)
          | .ok rest2 =>
              rw [hr] at h
              simp only [Except.ok.injEq] at h
              subst h
              simp [ih hr]

theorem execute_round_ok_inv {a : Auction} {o : RoundOracle} {a' : Auction}
    (h : a.execute_round o = .ok a') :
    ∃ bidders1 bids winner winning_bid rest balances_p balances1 bidders2 wbal,
      a.num_users ≠ 0 ∧
      collectBids o.userChoice o.draws a.bidders = .ok (bidders1, bids) ∧
      sortDesc bids = (winner, winning_bid) :: rest ∧
      dincr winner (-(spOf rest)) a.balances = .ok balances_p ∧
      (if o.clicked then dincr winner 1 balances_p else .ok balances_p) = .ok balances1 ∧
      notifyAll winner (spOf rest) o.clicked o.userChoice bidders1 = .ok bidders2 ∧
      dlookup winner balances1 = some wbal ∧
      a' = { num_users := a.num_users
             bidders := if wbal < -1000 then removeFirst winner bidders2 else bidders2
             balances := balances1
             history := a.history ++
               [{ user_id := o.userChoice, bids := bids, winner := winner,
                  winning_bid := winning_bid, second_price := spOf rest,
                  clicked := o.clicked, balances := balances1 }] } := by
  unfold Auction.execute_round at h
  by_cases hnu : a.num_users = 0
  · rw [if_pos hnu] at h; exact absurd h (by simp)
  · rw [if_neg hnu] at h; dsimp only at h
    match hcb : collectBids o.userChoice o.draws a.bidders with
    | .error e => rw [hcb] at h; exact absurd h (by simp)
    | .ok (bidders1, bids) =>
        rw [hcb] at h; dsimp only at h
        match hs : sortDesc bids with
        | [] => rw [hs] at h; exact absurd h (by simp)
        | (winner, winning_bid) :: rest =>
            rw [hs] at h; dsimp only at h
            match hdp : dincr winner (-(spOf rest)) a.balances with
            | .error e => rw [hdp] at h; exact absurd h (by simp)
            | .ok balances_p =>
                rw [hdp] at h; dsimp only at h
                match hd1 : (if o.clicked then dincr winner 1 balances_p
                             else .ok balances_p) with
                | .error e => rw [hd1] at h; exact absurd h (by simp)
                | .ok balances1 =>
                    rw [hd1] at h; dsimp only at h
                    match hna : notifyAll winner (spOf rest) o.clicked o.userChoice bidders1 with
                    | .error e => rw [hna] at h; exact absurd h (by simp)
                    | .ok bidders2 =>
                        rw [hna] at h; dsimp only at h
                        match hwb : dlookup winner balances1 with
                        | none => rw [hwb] at h; exact absurd h (by simp)
                        | some wbal =>
                            rw [hwb] at h; dsimp only at h
                            simp only [Except.ok.injEq] at h
                            exact ⟨bidders1, bids, winner, winning_bid, rest, balances_p,
                              balances1, bidders2, wbal, hnu, rfl, hs, hdp, hd1, hna, hwb,
                              h.symm⟩

theorem execute_round_step_facts {a : Auction} {o : RoundOracle} {a' : Auction}
    (h : a.execute_round o = .ok a') :
    ∃ r, a'.history = a.history ++ [r] ∧
      r.balances = a'.balances ∧
      r.bids.map Prod.fst = activeIds a ∧
      r.winner ∈ activeIds a ∧
      (∀ i, i ∈ activeIds a' → i ∈ activeIds a) ∧
      balKeys a' = balKeys a ∧
      (∀ i, i ≠ r.winner → dlookup i a'.balances = dlookup i a.balances) := by
  obtain ⟨bidders1, bids, winner, winning_bid, rest, balances_p, balances1, bidders2, wbal,
    hnu, hcb, hs, hdp, hd1, hna, hwb, ha'⟩ := execute_round_ok_inv h
  obtain ⟨hbids_ids, hbs1_ids, _⟩ := collectBids_ok_inv hcb
  have hbs2_ids : bidders2.map Prod.fst = a.bidders.map Prod.fst :=
    (notifyAll_ok_ids hna).trans hbs1_ids
  obtain ⟨v, hv, hbp⟩ := dincr_ok_inv hdp
  have hkeysp : balances_p.map Prod.fst = a.balances.map Prod.fst := by
    rw [hbp]; exact keys_dset_of_lookup hv _
  have hframe_p : ∀ i, i ≠ winner → dlookup i balances_p = dlookup i a.balances := by
    intro i hi; rw [hbp]; exact dlookup_dset_ne hi _ _
  have hbal1 : balances1.map Prod.fst = a.balances.map Prod.fst ∧
      ∀ i, i ≠ winner → dlookup i balances1 = dlookup i a.balances := by
    by_cases hc : o.clicked
    · rw [if_pos hc] at hd1
      obtain ⟨w2, hw2, hb1⟩ := dincr_ok_inv hd1
      constructor
      · rw [hb1]; exact (keys_dset_of_lookup hw2 _).trans hkeysp
      · intro i hi
        rw [hb1, dlookup_dset_ne hi _ _]
        exact hframe_p i hi
    · rw [if_neg hc] at hd1
      simp only [Except.ok.injEq] at hd1
      subst hd1
      exact ⟨hkeysp, hframe_p⟩
  have hwmem : winner ∈ bids.map Prod.fst := by
    have hmem : (winner, winning_bid) ∈ sortDesc bids := by rw [hs]; simp
    have : (winner, winning_bid) ∈ bids := (sortDesc_perm bids).mem_iff.mp hmem
    exact List.mem_map.mpr ⟨(winner, winning_bid), this, rfl⟩
  subst ha'
  refine ⟨_, rfl, rfl, hbids_ids, ?_, ?_, ?_, ?_⟩
  · show winner ∈ activeIds a
    unfold activeIds
    exact hbids_ids ▸ hwmem
  · intro i hi
    unfold activeIds at hi ⊢
    simp only at hi
    by_cases hdq : wbal < -1000
    · rw [if_pos hdq] at hi
      exact hbs2_ids ▸ removeFirst_ids_subset i hi
    · rw [if_neg hdq] at hi
      exact hbs2_ids ▸ hi
  · exact hbal1.1
  · exact hbal1.2

theorem runAuction_inv : ∀ {os : List RoundOracle} {a a2 : Auction},
    runAuction a os = .ok a2 →
    (∀ i, i ∈ activeIds a2 → i ∈ activeIds a) ∧
    balKeys a2 = balKeys a ∧
    ∃ ext, a2.history = a.history ++ ext ∧
      ∀ r ∈ ext, (∀ i, i ∈ r.bids.map Prod.fst → i ∈ activeIds a) ∧
        r.balances.map Prod.fst = balKeys a ∧
        (∀ i, i ∉ activeIds a → dlookup i r.balances = dlookup i a.balances) := by
  intro os
  induction os with
  | nil =>
      intro a a2 h
      simp only [runAuction, Except.ok.injEq] at h
      subst h
      exact ⟨fun i hi => hi, rfl, [], by simp, by simp⟩
  | cons o os ih =>
      intro a a2 h
      simp only [runAuction] at h
      match h1 : a.execute_round o with
      | .error e => rw [h1] at h; exact absurd h (by simp)
      | .ok a1 =>
          rw [h1] at h
          obtain ⟨r0, hhist0, hrb0, hbids0, hwin0, hact0, hkeys0, hframe0⟩ :=
            execute_round_step_facts h1
          obtain ⟨hact1, hkeys1, ext1, hhist1, hrec1⟩ := ih h
          refine ⟨fun i hi => hact0 i (hact1 i hi), hkeys1.trans hkeys0, r0 :: ext1, ?_, ?_⟩
          · rw [hhist1, hhist0, List.append_assoc]
            rfl
          · intro r hr
            rcases List.mem_cons.mp hr with hr | hr
            · subst hr
              refine ⟨fun i hi => hbids0 ▸ hi, by rw [hrb0]; exact hkeys0, ?_⟩
              intro i hi
              rw [hrb0]
              exact hframe0 i (fun hiw => hi (hiw ▸ hwin0))
            · obtain ⟨hb, hk, hf⟩ := hrec1 r hr
              refine ⟨fun i hi => hact0 i (hb i hi), hk.trans hkeys0, ?_⟩
              intro i hi
              have hi1 : i ∉ activeIds a1 := fun hx => hi (hact0 i hx)
              rw [hf i hi1]
              exact hframe0 i (fun hiw => hi (hiw ▸ hwin0))

/-- Claim C1: for every executed round (any `execute_round` call that returns
normally, which requires at least one active bidder), the appended round
record satisfies `second_price ≤ winning_bid`, `second_price` equals the
second-largest value (with multiplicity) of the round's bid mapping, and
`second_price = 0` when fewer than two bidders participated. -/
theorem c1_second_price_spec (a : Auction) (o : RoundOracle) (a' : Auction)
    (r : RoundRecord) (h : a.execute_round o = .ok a')
    (hr : a'.history = a.history ++ [r]) :
    r.second_price ≤ r.winning_bid ∧
    r.second_price = secondLargestVals (r.bids.map Prod.snd) ∧
    (r.bids.length < 2 → r.second_price = 0) := by
  obtain ⟨bidders1, bids, winner, winning_bid, rest, balances_p, balances1, bidders2, wbal,
    hnu, hcb, hs, hdp, hd1, hna, hwb, ha'⟩ := execute_round_ok_inv h
  rw [ha'] at hr
  simp only at hr
  have hsing := List.append_cancel_left hr
  injection hsing with hreq hnil
  subst hreq
  simp only
  obtain ⟨hbids_ids, hbs1_ids, hnn⟩ := collectBids_ok_inv hcb
  have hsorted : ((winner, winning_bid) :: rest).Pairwise (fun p q => q.2 ≤ p.2) := by
    rw [← hs]; exact sortDesc_sorted bids
  have hperm : List.Perm bids ((winner, winning_bid) :: rest) := by
    rw [← hs]; exact (sortDesc_perm bids).symm
  have hhead : ∀ q ∈ rest, q.2 ≤ winning_bid := by
    intro q hq
    exact (List.pairwise_cons.mp hsorted).1 q hq
  refine ⟨?_, ?_, ?_⟩
  · match rest, hhead with
    | [], _ =>
        show (0 : ℚ) ≤ winning_bid
        have hmem : (winner, winning_bid) ∈ bids := hperm.mem_iff.mpr (by simp)
        exact hnn _ hmem
    | q :: t, hhead => exact hhead q (by simp)
  · have hmap : List.Perm (bids.map Prod.snd) (winning_bid :: rest.map Prod.snd) :=
      hperm.map Prod.snd
    rw [secondLargestVals_perm hmap]
    have hsorted2 : (winning_bid :: rest.map Prod.snd).Pairwise (fun x y => y ≤ x) := by
      have := List.Pairwise.map (R := fun p q : Nat × ℚ => q.2 ≤ p.2)
        (S := fun x y : ℚ => y ≤ x) Prod.snd (fun p q hpq => hpq) hsorted
      exact this
    rw [secondLargestVals_sorted hsorted2]
    match rest with
    | [] => rfl
    | q :: t => rfl
  · intro hlen
    have hlen2 : bids.length = rest.length + 1 := by
      rw [hperm.length_eq]; rfl
    rw [hlen2] at hlen
    have : rest = [] := List.length_eq_zero.mp (by omega)
    subst this
    rfl

theorem notify_false_eq (b : Bidder) (price : ℚ) (cl : Option Bool) (uid : Nat) :
    b.notify false price cl uid = (b, .ok ()) := rfl

/-- The statistics entry stored for the notified user by a winning `notify`
call: `views` incremented, `clicks` incremented when `clicked` is truthy,
`ctr` recomputed as `clicks/views` from the updated counters. -/
def notifiedStat (st : UserStat) (cl : Option Bool) : UserStat :=
  { clicks := if cl = some true then st.clicks + 1 else st.clicks
    views := st.views + 1
    ctr := ((if cl = some true then st.clicks + 1 else st.clicks : Nat) : ℚ) /
      ((st.views + 1 : Nat) : ℚ)
    ucb_value := st.ucb_value }

theorem notify_true_unknown {b : Bidder} {uid : Nat}
    (h : dlookup uid b.user_stats = none) (price : ℚ) (cl : Option Bool) :
    b.notify true price cl uid = (b, .error .keyError) := by
  unfold Bidder.notify
  rw [if_pos rfl, h]

theorem notify_true_known {b : Bidder} {uid : Nat} {st : UserStat}
    (h : dlookup uid b.user_stats = some st) (price : ℚ) (cl : Option Bool) :
    b.notify true price cl uid =
      ({ b with user_stats := dset uid (notifiedStat st cl) b.user_stats }, .ok ()) := by
  unfold Bidder.notify
  rw [if_pos rfl, h]
  rfl

theorem bid_fst_stats (b : Bidder) (uid : Nat) (c u : ℚ) :
    (b.bid uid c u).1.round_counter = b.round_counter + 1 ∧
    (b.bid uid c u).1.num_users = b.num_users ∧
    (b.bid uid c u).1.num_rounds = b.num_rounds ∧
    (∀ v, ((dlookup v (b.bid uid c u).1.user_stats).map
        (fun s => (s.clicks, s.views, s.ctr))) =
      ((dlookup v b.user_stats).map (fun s => (s.clicks, s.views, s.ctr)))) ∧
    (∀ v, v ≠ uid → dlookup v (b.bid uid c u).1.user_stats = dlookup v b.user_stats) := by
  unfold Bidder.bid
  match hl : dlookup uid b.user_stats with
  | none =>
      simp only [hl]
      simp
  | some st =>
      simp only [hl]
      by_cases hg : alphaOf st ≤ 0 ∨ betaOf st ≤ 0
      · rw [if_pos hg]
        simp
      · rw [if_neg hg]
        refine ⟨rfl, rfl, rfl, ?_, ?_⟩
        · intro v
          by_cases hv : v = uid
          · subst hv
            simp only [dlookup_dset_self, hl]
            rfl
          · simp only [dlookup_dset_ne hv]
        · intro v hv
          simp only [dlookup_dset_ne hv]

/-- Claim C4 (amended): calling `notify` with a user id that is not in the
bidder's statistics mapping fails with a `KeyError` and creates no new entry
when `auction_winner` is true; when `auction_winner` is false the call
returns normally as a no-op, also creating no entry (the unknown id is never
consulted). -/
theorem c4_notify_unknown (b : Bidder) (price : ℚ) (cl : Option Bool) (uid : Nat)
    (h : dlookup uid b.user_stats = none) :
    b.notify true price cl uid = (b, .error .keyError) ∧
    b.notify false price cl uid = (b, .ok ()) :=
  ⟨notify_true_unknown h price cl, notify_false_eq b price cl uid⟩

/-- Claim C4 counterexample: the claim demands a failure whenever the user id
is unknown, regardless of `auction_winner`, but a losing-side `notify` with
an unknown user id (id 5 on a bidder that only knows users 0 and 1) returns
normally and leaves the bidder unchanged: no invalid-argument failure
occurs and no entry is created. -/
theorem c4_counterexample :
    dlookup 5 (Bidder.init 2 10).user_stats = none ∧
    (Bidder.init 2 10).notify false 0 none 5 = (Bidder.init 2 10, .ok ()) := by
  constructor
  · decide
  · rfl

/-- Claim C4 witness: the amended behaviour at a concrete unknown user id. -/
theorem c4_notify_unknown_witness :
    (Bidder.init 2 10).notify true 0 (some true) 5 = (Bidder.init 2 10, .error .keyError) ∧
    (Bidder.init 2 10).notify false 0 (some true) 5 = (Bidder.init 2 10, .ok ()) :=
  c4_notify_unknown (Bidder.init 2 10) 0 (some true) 5 (by decide)

/-- Claim C5: on a known user, `notify(False, ...)` is a complete no-op,
while `notify(True, ...)` succeeds, increments the user's `views` by one,
increments `clicks` by one exactly when `clicked` is truthy, stores
`ctr = clicks/views` recomputed from the updated counters, and leaves every
other user's entry and the round counter unchanged. -/
theorem c5_notify_updates (b : Bidder) (price : ℚ) (cl : Option Bool) (uid : Nat)
    (st : UserStat) (h : dlookup uid b.user_stats = some st) :
    b.notify false price cl uid = (b, .ok ()) ∧
    (b.notify true price cl uid).2 = .ok () ∧
    dlookup uid (b.notify true price cl uid).1.user_stats = some (notifiedStat st cl) ∧
    (∀ v, v ≠ uid → dlookup v (b.notify true price cl uid).1.user_stats =
      dlookup v b.user_stats) ∧
    (b.notify true price cl uid).1.round_counter = b.round_counter := by
  rw [notify_true_known h price cl]
  refine ⟨notify_false_eq b price cl uid, rfl, ?_, ?_, rfl⟩
  · simp only [dlookup_dset_self]
  · intro v hv
    simp only [dlookup_dset_ne hv]

/-- Claim C5 witness: a winning click notification on a fresh two-user bidder
updates user 1 to one click out of one view with `ctr = 1`, and the losing
call is the identity. -/
theorem c5_notify_updates_witness :
    (Bidder.init 2 10).notify false (1/2) (some true) 1 = (Bidder.init 2 10, .ok ()) ∧
    ((Bidder.init 2 10).notify true (1/2) (some true) 1).2 = .ok () ∧
    dlookup 1 ((Bidder.init 2 10).notify true (1/2) (some true) 1).1.user_stats =
      some (notifiedStat ⟨0, 0, 0.5, .inf⟩ (some true)) ∧
    (∀ v, v ≠ 1 → dlookup v ((Bidder.init 2 10).notify true (1/2) (some true) 1).1.user_stats =
      dlookup v (Bidder.init 2 10).user_stats) ∧
    ((Bidder.init 2 10).notify true (1/2) (some true) 1).1.round_counter =
      (Bidder.init 2 10).round_counter :=
  c5_notify_updates (Bidder.init 2 10) (1/2) (some true) 1 ⟨0, 0, 0.5, .inf⟩ (by decide)

/-- Claim C8: on a known user (with the `clicks ≤ views` invariant that every
reachable state satisfies), `bid` returns exactly
`max(0, round3(sampled_ctr * 0.25 + u))`, where `sampled_ctr` and `u` are
the call's two random draws taken as inputs, and the returned bid is never
negative. -/
theorem c8_bid_value (b : Bidder) (uid : Nat) (sampled_ctr u : ℚ) (st : UserStat)
    (h1 : dlookup uid b.user_stats = some st) (h2 : st.clicks ≤ st.views) :
    (b.bid uid sampled_ctr u).2 = .ok (max 0 (pyRound3 (sampled_ctr * 0.25 + u))) ∧
    (0 : ℚ) ≤ max 0 (pyRound3 (sampled_ctr * 0.25 + u)) := by
  have hg : ¬(alphaOf st ≤ 0 ∨ betaOf st ≤ 0) := by
    unfold alphaOf betaOf
    push_neg
    omega
  unfold Bidder.bid
  simp only [h1]
  rw [if_neg hg]
  exact ⟨rfl, le_max_left 0 _⟩

/-- Claim C8 witness: a concrete bid on a fresh bidder evaluates to the
rounded, floored formula. -/
theorem c8_bid_value_witness :
    ((Bidder.init 1 5).bid 0 (1/2) (1/100)).2 =
      .ok (max 0 (pyRound3 ((1/2) * 0.25 + 1/100))) ∧
    (0 : ℚ) ≤ max 0 (pyRound3 ((1/2) * 0.25 + 1/100)) :=
  c8_bid_value (Bidder.init 1 5) 0 (1/2) (1/100) ⟨0, 0, 0.5, .inf⟩ (by decide) (by decide)

/-- Claim C9: a `bid` call mutates nothing except the shared round counter,
which increases by exactly one, and (possibly) the queried user's stored
confidence bound: every user's `clicks`, `views` and `ctr` are unchanged,
every other user's full entry is unchanged, and the capacity fields are
unchanged.  This holds on every bidder state, including the failure paths. -/
theorem c9_bid_frame (b : Bidder) (uid : Nat) (sampled_ctr u : ℚ) :
    (b.bid uid sampled_ctr u).1.round_counter = b.round_counter + 1 ∧
    (b.bid uid sampled_ctr u).1.num_users = b.num_users ∧
    (b.bid uid sampled_ctr u).1.num_rounds = b.num_rounds ∧
    (∀ v, ((dlookup v (b.bid uid sampled_ctr u).1.user_stats).map
        (fun s => (s.clicks, s.views, s.ctr))) =
      ((dlookup v b.user_stats).map (fun s => (s.clicks, s.views, s.ctr)))) ∧
    (∀ v, v ≠ uid →
      dlookup v (b.bid uid sampled_ctr u).1.user_stats = dlookup v b.user_stats) :=
  bid_fst_stats b uid sampled_ctr u

/-- Claim C9 witness: the frame conditions of a concrete bid call on a fresh
two-user bidder. -/
theorem c9_bid_frame_witness :
    ((Bidder.init 2 7).bid 0 (1/2) 0).1.round_counter = (Bidder.init 2 7).round_counter + 1 ∧
    ((Bidder.init 2 7).bid 0 (1/2) 0).1.num_users = (Bidder.init 2 7).num_users ∧
    ((Bidder.init 2 7).bid 0 (1/2) 0).1.num_rounds = (Bidder.init 2 7).num_rounds ∧
    (∀ v, ((dlookup v ((Bidder.init 2 7).bid 0 (1/2) 0).1.user_stats).map
        (fun s => (s.clicks, s.views, s.ctr))) =
      ((dlookup v (Bidder.init 2 7).user_stats).map (fun s => (s.clicks, s.views, s.ctr)))) ∧
    (∀ v, v ≠ 0 →
      dlookup v ((Bidder.init 2 7).bid 0 (1/2) 0).1.user_stats =
        dlookup v (Bidder.init 2 7).user_stats) :=
  c9_bid_frame (Bidder.init 2 7) 0 (1/2) 0

theorem dlookup_append {α : Type} (k : Nat) (l1 l2 : List (Nat × α)) :
    dlookup k (l1 ++ l2) =
      match dlookup k l1 with
      | some v => some v
      | none => dlookup k l2 := by
  induction l1 with
  | nil => simp [dlookup]
  | cons p t ih =>
      obtain ⟨j, w⟩ := p
      by_cases hk : k = j
      · simp [dlookup, hk]
      · simp [dlookup, hk, ih]

theorem dlookup_range_const {α : Type} (c : α) (n k : Nat) :
    dlookup k ((List.range n).map (fun u => (u, c))) =
      if k < n then some c else none := by
  induction n with
  | zero => simp [dlookup]
  | succ m ih =>
      rw [List.range_succ, List.map_append, dlookup_append, ih]
      by_cases hk : k < m
      · simp [hk, Nat.lt_succ_of_lt hk]
      · by_cases hk2 : k = m
        · subst hk2
          simp [dlookup, Nat.lt_succ_self, hk]
        · have : ¬k < m + 1 := by omega
          simp [dlookup, hk, hk2, this]

/-- States of a bidder reachable from construction by any sequence of `bid`
and `notify` calls, with arbitrary arguments and random draws (failed calls
also count: their partial mutations are retained, as in Python). -/
inductive ReachableB : Bidder → Prop where
  | init (nu nr : Nat) : ReachableB (Bidder.init nu nr)
  | bid (b : Bidder) (uid : Nat) (c u : ℚ) (hb : ReachableB b) :
      ReachableB (b.bid uid c u).1
  | notify (b : Bidder) (aw : Bool) (price : ℚ) (cl : Option Bool) (uid : Nat)
      (hb : ReachableB b) : ReachableB (b.notify aw price cl uid).1

/-- Claim C7: in every reachable bidder state, every known user's statistics
satisfy `clicks ≤ views`, the stored `ctr` lies in `[0, 1]` and equals
`clicks/views` whenever `views > 0`, and the Beta parameters
`alpha = clicks + 1` and `beta = views - clicks + 1` computed by `bid` are
both at least 1. -/
theorem c7_bidder_invariant (b : Bidder) (hb : ReachableB b) :
    ∀ uid st, dlookup uid b.user_stats = some st →
      st.clicks ≤ st.views ∧
      0 ≤ st.ctr ∧ st.ctr ≤ 1 ∧
      (0 < st.views → st.ctr = (st.clicks : ℚ) / (st.views : ℚ)) ∧
      1 ≤ alphaOf st ∧ 1 ≤ betaOf st := by
  induction hb with
  | init nu nr =>
      intro uid st h
      unfold Bidder.init at h
      rw [dlookup_range_const] at h
      by_cases hk : uid < nu
      · rw [if_pos hk] at h
        obtain rfl := Option.some.inj h
        decide
      · rw [if_neg hk] at h
        exact absurd h (by simp)
  | bid b uid0 c u hb ih =>
      intro uid st h
      obtain ⟨_, _, _, hproj, _⟩ := bid_fst_stats b uid0 c u
      have hp := hproj uid
      rw [h] at hp
      match hl : dlookup uid b.user_stats with
      | none => rw [hl] at hp; simp at hp
      | some st0 =>
          rw [hl] at hp
          obtain ⟨hc, hv, hct⟩ : st.clicks = st0.clicks ∧ st.views = st0.views ∧
              st.ctr = st0.ctr := by simpa using hp
          have hinv := ih uid st0 hl
          unfold alphaOf betaOf at hinv ⊢
          rw [hc, hv, hct]
          exact hinv
  | notify b aw price cl uid0 hb ih =>
      intro uid st h
      cases aw with
      | false =>
          rw [notify_false_eq] at h
          exact ih uid st h
      | true =>
          match hl : dlookup uid0 b.user_stats with
          | none =>
              rw [notify_true_unknown hl] at h
              exact ih uid st h
          | some st0 =>
              rw [notify_true_known hl] at h
              have h2 : dlookup uid (dset uid0 (notifiedStat st0 cl) b.user_stats) =
                some st := h
              by_cases he : uid = uid0
              · subst he
                rw [dlookup_dset_self] at h2
                obtain rfl := Option.some.inj h2
                obtain ⟨ic, i0, i1, ieq, ia, ib2⟩ := ih uid st0 hl
                have hv1 : (0:ℚ) < ((st0.views + 1 : Nat) : ℚ) :=
                  Nat.cast_pos.mpr (by omega)
                have hnat : (if cl = some true then st0.clicks + 1 else st0.clicks) ≤
                    st0.views + 1 := by
                  by_cases hcl : cl = some true <;> simp [hcl] <;> omega
                have hcast :
                    ((if cl = some true then st0.clicks + 1 else st0.clicks : Nat) : ℚ) ≤
                    ((st0.views + 1 : Nat) : ℚ) := Nat.cast_le.mpr hnat
                refine ⟨hnat, div_nonneg (Nat.cast_nonneg _) hv1.le,
                  (div_le_one hv1).mpr hcast, fun _ => rfl, ?_, ?_⟩
                · show 1 ≤ alphaOf (notifiedStat st0 cl)
                  unfold alphaOf
                  omega
                · show 1 ≤ betaOf (notifiedStat st0 cl)
                  unfold betaOf
                  have hh : (notifiedStat st0 cl).clicks ≤ (notifiedStat st0 cl).views := hnat
                  omega
              · rw [dlookup_dset_ne he] at h2
                exact ih uid st h2

/-- Claim C2 (code bug): when `execute_round` runs with zero active bidders
it raises `IndexError` — from the empty-sequence access `sorted_bids[0]`
(or already from `random.choice` when the user pool is also empty) — instead
of failing with a distinct no-bidders condition as the specification
requires. -/
theorem c2_empty_bidders_index_error (a : Auction) (o : RoundOracle)
    (hb : a.bidders = []) :
    a.execute_round o = .error .indexError := by
  unfold Auction.execute_round
  by_cases hnu : a.num_users = 0
  · rw [if_pos hnu]
  · rw [if_neg hnu, hb]
    rfl

/-- Recovers the auction from a normally returning run, with an explicit
fallback for the exceptional case (used only to name concrete run results in
closed statements). -/
def exOk (dflt : Auction) (e : Except PyErr Auction) : Auction :=
  match e with
  | .ok a => a
  | .error _ => dflt

/-- A two-bidder, one-user auction in its initial state. -/
def demoA : Auction := Auction.init 1 [(0, Bidder.init 1 5), (1, Bidder.init 1 5)]

/-- One round of draws for `demoA`: bidder 0 samples ctr 1/2, bidder 1
samples ctr 1/4, no bid noise, and the user clicks. -/
def demoO : RoundOracle :=
  { userChoice := 0, draws := fun i => if i = 0 then (1/2, 0) else (1/4, 0),
    clicked := true }

/-- The auction state after executing `demoO` on `demoA`. -/
def demoA1 : Auction := exOk demoA (demoA.execute_round demoO)

/-- The round record produced by executing `demoO` on `demoA`. -/
def demoRec : RoundRecord :=
  { user_id := 0, bids := [(0, 1/8), (1, 31/500)], winner := 0,
    winning_bid := 1/8, second_price := 31/500, clicked := true,
    balances := [(0, 469/500), (1, 0)] }

/-- Claim C1 witness: the recorded second price of the concrete demo round
is below the winning bid and equals the second-largest collected bid. -/
theorem c1_second_price_spec_witness :
    demoRec.second_price ≤ demoRec.winning_bid ∧
    demoRec.second_price = secondLargestVals (demoRec.bids.map Prod.snd) ∧
    (demoRec.bids.length < 2 → demoRec.second_price = 0) :=
  c1_second_price_spec demoA demoO demoA1 demoRec (by decide) (by decide)

/-- Claim C2 witness: a concrete auction with users but no bidders raises
`IndexError`. -/
theorem c2_empty_bidders_index_error_witness :
    (Auction.init 1 []).execute_round demoO = .error .indexError :=
  c2_empty_bidders_index_error (Auction.init 1 []) demoO (by decide)

/-- Claim C6: in every executed round, the winner's balance entry changes by
exactly `(1 if clicked else 0) - second_price`: the winner pays the recorded
second price, not its own winning bid, and receives the fixed reward 1
exactly when the user clicked. -/
theorem c6_settle_rule (a : Auction) (o : RoundOracle) (a' : Auction)
    (r : RoundRecord) (bal0 : ℚ) (h : a.execute_round o = .ok a')
    (hr : a'.history = a.history ++ [r])
    (hb : dlookup r.winner a.balances = some bal0) :
    dlookup r.winner r.balances =
      some (bal0 + (if r.clicked then 1 else 0) - r.second_price) := by
  obtain ⟨bidders1, bids, winner, winning_bid, rest, balances_p, balances1, bidders2, wbal,
    hnu, hcb, hs, hdp, hd1, hna, hwb, ha'⟩ := execute_round_ok_inv h
  rw [ha'] at hr
  simp only at hr
  have hsing := List.append_cancel_left hr
  injection hsing with hreq hnil
  subst hreq
  simp only at hb ⊢
  obtain ⟨v, hv, hbp⟩ := dincr_ok_inv hdp
  rw [hb] at hv
  obtain rfl := Option.some.inj hv
  by_cases hc : o.clicked
  · rw [if_pos hc] at hd1
    obtain ⟨w2, hw2, hb1⟩ := dincr_ok_inv hd1
    rw [hbp, dlookup_dset_self] at hw2
    obtain rfl := Option.some.inj hw2
    rw [hb1, dlookup_dset_self, if_pos hc]
    congr 1
    ring
  · rw [if_neg hc] at hd1
    simp only [Except.ok.injEq] at hd1
    subst hd1
    rw [hbp, dlookup_dset_self, if_neg hc]
    congr 1
    ring

/-- Claim C6 witness: in the demo round the winner started at balance 0,
clicked is true and the second price is 31/500, so its entry becomes
`0 + 1 - 31/500`. -/
theorem c6_settle_rule_witness :
    dlookup demoRec.winner demoRec.balances =
      some (0 + (if demoRec.clicked then 1 else 0) - demoRec.second_price) :=
  c6_settle_rule demoA demoO demoA1 demoRec 0 (by decide) (by decide) (by decide)

/-- Claim C10: in every executed round, the appended record's snapshot is the
updated balances dictionary, only the winner's balance entry can change, the
key set of the balances dictionary is preserved, and along any continuation
of the run every later snapshot keeps exactly the same key set — in
particular a bidder that was removed by the solvency check (absent from the
active set) keeps its balances entry, frozen at its final value, in the
dictionary and in every later round's snapshot. -/
theorem c10_balances_frame (a : Auction) (o : RoundOracle) (a' : Auction)
    (r : RoundRecord) (h : a.execute_round o = .ok a')
    (hr : a'.history = a.history ++ [r]) :
    r.balances = a'.balances ∧
    (∀ i, i ≠ r.winner → dlookup i a'.balances = dlookup i a.balances) ∧
    balKeys a' = balKeys a ∧
    (∀ os a2, runAuction a' os = .ok a2 →
      balKeys a2 = balKeys a ∧
      ∀ r2 ∈ a2.history.drop a.history.length,
        r2.balances.map Prod.fst = balKeys a ∧
        (∀ i, i ∉ activeIds a' → dlookup i r2.balances = dlookup i a'.balances)) := by
  obtain ⟨r0, hhist0, hrb0, hbids0, hwin0, hact0, hkeys0, hframe0⟩ :=
    execute_round_step_facts h
  have heq := hhist0.symm.trans hr
  injection List.append_cancel_left heq with hreq hnil
  subst hreq
  refine ⟨hrb0, hframe0, hkeys0, ?_⟩
  intro os a2 hrun
  obtain ⟨hact2, hkeys2, ext, hhist2, hrec2⟩ := runAuction_inv hrun
  refine ⟨hkeys2.trans hkeys0, ?_⟩
  intro r2 hr2
  rw [hhist2, hhist0, List.append_assoc, List.drop_left] at hr2
  rcases List.mem_cons.mp hr2 with hr2 | hr2
  · subst hr2
    refine ⟨by rw [hrb0]; exact hkeys0, ?_⟩
    intro i hi
    rw [hrb0]
  · obtain ⟨hb2, hk2, hf2⟩ := hrec2 r2 hr2
    exact ⟨hk2.trans hkeys0, hf2⟩

/-- Claim C10 witness: concrete frame facts of the demo round — the
snapshot is the updated dictionary, the loser's entry is untouched, and the
key set is preserved into the snapshot. -/
theorem c10_balances_frame_witness :
    demoRec.balances = demoA1.balances ∧
    dlookup 1 demoA1.balances = dlookup 1 demoA.balances ∧
    balKeys demoA1 = balKeys demoA ∧
    demoRec.balances.map Prod.fst = balKeys demoA := by
  obtain ⟨h1, h2, h3, h4⟩ :=
    c10_balances_frame demoA demoO demoA1 demoRec (by decide) (by decide)
  obtain ⟨h5, h6⟩ := h4 [] demoA1 (by decide)
  exact ⟨h1, h2 1 (by decide), h3, (h6 demoRec (by decide)).1⟩

/-- Bidder 0 of the C3 scenario: it has won 4999 rounds for the single user
without a single click, so its view count and round counter are 4999 and its
stored `ctr` is 0. -/
def c3B0 : Bidder :=
  { num_users := 1, num_rounds := 5000, round_counter := 4999,
    user_stats := [(0, ⟨0, 4999, 0, .score (4/5) 4999 4998⟩)] }

/-- Bidder 1 of the C3 scenario: it has bid in 4999 rounds but never won, so
its statistics are untouched and its confidence bound is still infinite. -/
def c3B1 : Bidder :=
  { num_users := 1, num_rounds := 5000, round_counter := 4999,
    user_stats := [(0, ⟨0, 0, 1/2, .inf⟩)] }

/-- The C3 auction state: bidder 0 has accumulated balance -999.9 (4999 lost
payments of 0.2) and is one more winning round away from insolvency. -/
def c3A0 : Auction :=
  { num_users := 1, bidders := [(0, c3B0), (1, c3B1)],
    balances := [(0, -9999/10), (1, 0)], history := [] }

/-- Round-one draws: bidder 0 bids 0.21, bidder 1 bids 0.2, no click. -/
def c3o1 : RoundOracle :=
  { userChoice := 0, draws := fun i => if i = 0 then (4/5, 1/100) else (4/5, 0),
    clicked := false }

/-- Round-two draws: every remaining bidder samples ctr 4/5, no click. -/
def c3o2 : RoundOracle :=
  { userChoice := 0, draws := fun _ => (4/5, 0), clicked := false }

/-- State after round one of the C3 scenario: bidder 0 won at second price
0.2, fell to balance -1000.1 and was disqualified. -/
def c3A1 : Auction := exOk c3A0 (c3A0.execute_round c3o1)

/-- State after round two of the C3 scenario. -/
def c3A2 : Auction := exOk c3A0 (runAuction c3A1 [c3o2])

/-- Claim C3 counterexample: running the two C3 rounds succeeds; in round
one bidder 0 participates (it is in the bid mapping), wins, and its recorded
balance -1000.1 drops below -1000, so it is removed — round two's bid
mapping contains only bidder 1.  Yet round two's balances snapshot still
maps bidder 0 (to its final balance -1000.1): the disqualified bidder does
appear in a subsequent round's balances snapshot, refuting the claim as
stated. -/
theorem c3_counterexample :
    (runAuction c3A0 [c3o1, c3o2]).isOk = true ∧
    (exOk c3A0 (runAuction c3A0 [c3o1, c3o2])).history.map
      (fun r => (r.winner, r.bids.map Prod.fst, r.balances.map Prod.fst,
        dlookup 0 r.balances)) =
      [(0, [0, 1], [0, 1], some (-10001/10)),
       (1, [1], [0, 1], some (-10001/10))] ∧
    (-10001/10 : ℚ) < -1000 := by decide

/-- Claim C3 (amended): once a bidder is removed by the solvency check at
the end of a round (active when the round began, inactive after it), the
bidder never appears in any subsequent round's bid mapping; contrary to the
original claim its balances entry is NOT dropped: every subsequent round's
balances snapshot still contains the bidder, frozen at its final balance. -/
theorem c3_disqualified_stays_out (a : Auction) (o : RoundOracle) (a1 : Auction)
    (w : Nat) (os : List RoundOracle) (a2 : Auction)
    (h1 : a.execute_round o = .ok a1)
    (h2 : w ∈ activeIds a) (h3 : w ∉ activeIds a1)
    (h4 : runAuction a1 os = .ok a2) :
    ∀ r ∈ a2.history.drop a1.history.length,
      w ∉ r.bids.map Prod.fst ∧
      dlookup w r.balances = dlookup w a1.balances ∧
      (w ∈ balKeys a → w ∈ r.balances.map Prod.fst) := by
  obtain ⟨r0, hhist0, hrb0, hbids0, hwin0, hact0, hkeys0, hframe0⟩ :=
    execute_round_step_facts h1
  obtain ⟨hact2, hkeys2, ext, hhist2, hrec2⟩ := runAuction_inv h4
  intro r hr
  rw [hhist2, List.drop_left] at hr
  obtain ⟨hb, hk, hf⟩ := hrec2 r hr
  refine ⟨fun hmem => h3 (hb w hmem), hf w h3, fun hw => ?_⟩
  rw [hk, hkeys0]
  exact hw

/-- The record of round two of the C3 scenario. -/
def c3rec2 : RoundRecord :=
  { user_id := 0, bids := [(1, 1/5)], winner := 1, winning_bid := 1/5,
    second_price := 0, clicked := false,
    balances := [(0, -10001/10), (1, 0)] }

/-- Claim C3 witness: the amended statement applied to the concrete C3
scenario — after bidder 0's removal in round one, round two's record
contains no bid of bidder 0 but still carries its frozen balances entry. -/
theorem c3_disqualified_stays_out_witness :
    0 ∉ c3rec2.bids.map Prod.fst ∧
    dlookup 0 c3rec2.balances = dlookup 0 c3A1.balances ∧
    (0 ∈ balKeys c3A0 → 0 ∈ c3rec2.balances.map Prod.fst) :=
  c3_disqualified_stays_out c3A0 c3o1 c3A1 0 [c3o2] c3A2
    (by decide) (by decide) (by decide) (by decide) c3rec2 (by decide)

/-- A reachable bidder state for the C7 witness: a fresh one-user bidder
after one winning, clicked notification. -/
def c7b : Bidder := ((Bidder.init 1 5).notify true 0 (some true) 0).1

/-- The statistics entry of user 0 in `c7b`: one click out of one view. -/
def c7st : UserStat := ⟨1, 1, 1, .inf⟩

/-- Claim C7 witness: the invariant evaluated in the concrete reachable state
`c7b` at user 0. -/
theorem c7_bidder_invariant_witness :
    c7st.clicks ≤ c7st.views ∧
    0 ≤ c7st.ctr ∧ c7st.ctr ≤ 1 ∧
    (0 < c7st.views → c7st.ctr = (c7st.clicks : ℚ) / (c7st.views : ℚ)) ∧
    1 ≤ alphaOf c7st ∧ 1 ≤ betaOf c7st :=
  c7_bidder_invariant c7b
    (ReachableB.notify (Bidder.init 1 5) true 0 (some true) 0 (ReachableB.init 1 5))
    0 c7st (by decide)
